import Mathlib

/-!
Shallow embedding of the skyscs audio player core.

The data model follows src/types.ts; the operations follow the handler
functions of src/unnamed/part_000 (the main App component).  JS numbers are
modelled as Rat (the operations verified here only store and compare them),
JS array indices as Int (currentTrackIndex may be -1), and JS
optional/undefined-able fields as Option.
-/

/-- AIInsight interface from src/types.ts. -/
structure AIInsight where
  mood : String
  fact : String
  vibe : String
deriving DecidableEq

/-- Track interface from src/types.ts; the File object is modelled by an
opaque string handle, and the two optional fields are Options. -/
structure Track where
  id : String
  file : String
  title : String
  artist : String
  album : String
  duration : Rat
  url : String
  coverArt : Option String
  insight : Option AIInsight
deriving DecidableEq

/-- repeatMode values of PlayerState from src/types.ts. -/
inductive RepeatMode where
  | none
  | all
  | one
deriving DecidableEq

/-- PlayerState interface from src/types.ts. -/
structure PlayerState where
  isPlaying : Bool
  currentTrackIndex : Int
  volume : Rat
  currentTime : Rat
  repeatMode : RepeatMode
  isShuffle : Bool
deriving DecidableEq

/-- Initial player state, src/unnamed/part_000 lines 10-17. -/
def initPlayerState : PlayerState :=
  { isPlaying := false
    currentTrackIndex := -1
    volume := 7/10
    currentTime := 0
    repeatMode := RepeatMode.none
    isShuffle := false }

/-- SmartPlaylist interface from src/types.ts; criteria.mood is optional. -/
structure SmartPlaylist where
  id : String
  name : String
  criteriaMood : Option String
deriving DecidableEq

/-- createSmartPlaylist, src/unnamed/part_000 lines 157-165; the random id is
taken as a parameter. -/
def createSmartPlaylist (id : String) (mood : String) : SmartPlaylist :=
  { id := id, name := mood ++ " Vibes", criteriaMood := some mood }

/-- JS String.prototype.toLowerCase on the mood strings, modelled as a
per-character lowering of basic latin letters.  It is defined by a structural
map over the characters so the kernel can evaluate it on concrete strings. -/
def toLowerCase (s : String) : String :=
  String.mk (s.data.map Char.toLower)

/-- displayedTracks, src/unnamed/part_000 lines 29-34: derived filtered view.
The JS strict equality on `t.insight?.mood.toLowerCase()` versus
`playlist.criteria.mood?.toLowerCase()` (undefined on either side when the
optional chain is absent) is exactly Option equality of the lowered moods. -/
def displayedTracks (tracks : List Track) (smartPlaylists : List SmartPlaylist)
    (activeSmartPlaylistId : Option String) : List Track :=
  match activeSmartPlaylistId with
  | none => tracks
  | some aid =>
    match smartPlaylists.find? (fun p => p.id == aid) with
    | none => tracks
    | some playlist =>
      tracks.filter (fun t =>
        (t.insight.map (fun i => toLowerCase i.mood)) == (playlist.criteriaMood.map toLowerCase))

/-- playTrack, src/unnamed/part_000 lines 112-116 (the audio-context resume on
line 115 touches the device, not PlayerState). -/
def playTrack (view : List Track) (index : Int) (s : PlayerState) : PlayerState :=
  if index < 0 ∨ index ≥ (view.length : Int) then s
  else { s with currentTrackIndex := index, isPlaying := true }

/-- togglePlay, src/unnamed/part_000 lines 118-124. -/
def togglePlay (view : List Track) (s : PlayerState) : PlayerState :=
  if s.currentTrackIndex = -1 ∧ 0 < view.length then playTrack view 0 s
  else { s with isPlaying := !s.isPlaying }

/-- nextTrack, src/unnamed/part_000 lines 136-147.  Under repeatMode one the
code only rewinds the audio device; PlayerState is untouched. -/
def nextTrack (view : List Track) (s : PlayerState) : PlayerState :=
  if s.repeatMode = RepeatMode.one then s
  else
    let nextIndex : Int := s.currentTrackIndex + 1
    let nextIndex : Int :=
      if nextIndex ≥ (view.length : Int) then
        if s.repeatMode = RepeatMode.all then 0 else s.currentTrackIndex
      else nextIndex
    playTrack view nextIndex s

/-- prevTrack, src/unnamed/part_000 lines 149-155. -/
def prevTrack (view : List Track) (s : PlayerState) : PlayerState :=
  let prevIndex : Int := s.currentTrackIndex - 1
  let prevIndex : Int :=
    if prevIndex < 0 then
      if s.repeatMode = RepeatMode.all then (view.length : Int) - 1 else 0
    else prevIndex
  playTrack view prevIndex s

/-- handleVolumeChange, src/unnamed/part_000 lines 173-176: stores the parsed
value directly into PlayerState, with no clamping in the handler. -/
def handleVolumeChange (vol : Rat) (s : PlayerState) : PlayerState :=
  { s with volume := vol }

/-- handleSeek, src/unnamed/part_000 lines 167-171 (state part). -/
def handleSeek (time : Rat) (s : PlayerState) : PlayerState :=
  { s with currentTime := time }

-- Some concrete tracks and playlists used as witness inputs below.

def tA : Track :=
  { id := "a", file := "a.mp3", title := "A", artist := "Local Artist",
    album := "Local Storage", duration := 0, url := "blob:a", coverArt := none,
    insight := some { mood := "Chill", fact := "fA", vibe := "#111111" } }

def tB : Track :=
  { id := "b", file := "b.mp3", title := "B", artist := "Local Artist",
    album := "Local Storage", duration := 0, url := "blob:b", coverArt := none,
    insight := none }

def tC : Track :=
  { id := "c", file := "c.mp3", title := "C", artist := "Local Artist",
    album := "Local Storage", duration := 0, url := "blob:c", coverArt := none,
    insight := some { mood := "chill", fact := "fC", vibe := "#222222" } }

def plChill : SmartPlaylist := createSmartPlaylist "p1" "Chill"

def s3all : PlayerState :=
  { initPlayerState with currentTrackIndex := 2, repeatMode := RepeatMode.all }

def s0all : PlayerState :=
  { initPlayerState with currentTrackIndex := 0, repeatMode := RepeatMode.all }

/-- Spec-side matching predicate for claim C3 (refinement): a track matches a
mood criterion exactly when it carries insight whose mood equals the criterion
mood case-insensitively; a track with no insight never matches. -/
def specMoodMatch (m : String) (t : Track) : Bool :=
  match t.insight with
  | some i => toLowerCase i.mood == toLowerCase m
  | none => false

/-!
The enrichment pipeline, src/unnamed/part_000 lines 79-92 plus the two other
writers of the tracks state (handleFileUpload, lines 94-110, and the
onLoadedMetadata duration write, lines 296-299), modelled as a transition
system.  A state carries the tracks array, the isInsightLoading flag, the
multiset (as a list) of in-flight insight requests, and a log of all requests
ever issued, so that "at most one outstanding request" is a provable invariant
rather than a typing artifact.  The guard of the start transition is exactly
the code's check on line 82 (`unprocessed && !isInsightLoading`); a complete
transition applies the response of one in-flight request exactly as lines
85-88 do.  Upload freshness of the generated random ids is the data model's
"unique id" assumption.
-/

structure EnrichState where
  tracks : List Track
  isInsightLoading : Bool
  outstanding : List String
  requestLog : List String
deriving DecidableEq

/-- Effect of a resolved insight request on the tracks array, lines 85-87: a
null response leaves the catalog untouched; a non-null insight is merged into
the track with the matching id. -/
def applyResult (tracks : List Track) (tid : String) (res : Option AIInsight) : List Track :=
  match res with
  | none => tracks
  | some insight =>
    tracks.map (fun t => if t.id == tid then { t with insight := some insight } else t)

/-- Initial pipeline state: empty catalog, no request outstanding. -/
def initEnrichState : EnrichState :=
  { tracks := [], isInsightLoading := false, outstanding := [], requestLog := [] }

inductive EnrichStep : EnrichState → EnrichState → Prop where
  | upload {s : EnrichState} (newTracks : List Track)
      (hids : ((s.tracks ++ newTracks).map Track.id).Nodup)
      (hnew : ∀ t ∈ newTracks, t.insight = none) :
      EnrichStep s { s with tracks := s.tracks ++ newTracks }
  | start {s : EnrichState} (u : Track)
      (hload : s.isInsightLoading = false)
      (hfind : s.tracks.find? (fun t => t.insight.isNone) = some u) :
      EnrichStep s { s with
        isInsightLoading := true
        outstanding := s.outstanding ++ [u.id]
        requestLog := s.requestLog ++ [u.id] }
  | complete {s : EnrichState} (tid : String) (res : Option AIInsight)
      (hmem : tid ∈ s.outstanding) :
      EnrichStep s { tracks := applyResult s.tracks tid res
                     isInsightLoading := false
                     outstanding := s.outstanding.erase tid
                     requestLog := s.requestLog }
  | setDuration {s : EnrichState} (tid : String) (d : Rat) :
      EnrichStep s { s with
        tracks := s.tracks.map (fun t => if t.id == tid then { t with duration := d } else t) }

inductive EnrichReachable : EnrichState → Prop where
  | init : EnrichReachable initEnrichState
  | step {s s' : EnrichState} :
      EnrichReachable s → EnrichStep s s' → EnrichReachable s'

/-- First track with the given id, i.e. the semantics the code's
`prev.map(t => t.id === unprocessed.id ? ... : t)` updates rely on when ids
are unique. -/
def lookupTrack (tracks : List Track) (tid : String) : Option Track :=
  tracks.find? (fun t => t.id == tid)

/-- Inductive invariant of the pipeline: ids are unique, at most one request
is in flight, the loading flag mirrors the in-flight set, and any in-flight
request targets a track that has no insight yet. -/
def EnrichInv (s : EnrichState) : Prop :=
  (s.tracks.map Track.id).Nodup ∧
  s.outstanding.length ≤ 1 ∧
  (s.isInsightLoading = true ↔ s.outstanding ≠ []) ∧
  ∀ tid ∈ s.outstanding, ∀ t ∈ s.tracks, t.id = tid → t.insight = none

-- A concrete run of the pipeline on an all-unprocessed two-track upload,
-- shared by the claims about enrichment.

def wI : AIInsight := { mood := "Chill", fact := "wf", vibe := "#333333" }

def wX : Track :=
  { id := "x", file := "x.mp3", title := "X", artist := "Local Artist",
    album := "Local Storage", duration := 0, url := "blob:x", coverArt := none,
    insight := none }

def wY : Track :=
  { id := "y", file := "y.mp3", title := "Y", artist := "Local Artist",
    album := "Local Storage", duration := 0, url := "blob:y", coverArt := none,
    insight := none }

def wXdone : Track := { wX with insight := some wI }

def esUpload : EnrichState :=
  { tracks := [wX, wY], isInsightLoading := false, outstanding := [], requestLog := [] }

def esStart1 : EnrichState :=
  { tracks := [wX, wY], isInsightLoading := true, outstanding := ["x"], requestLog := ["x"] }

def esFail1 : EnrichState :=
  { tracks := [wX, wY], isInsightLoading := false, outstanding := [], requestLog := ["x"] }

def esStart2 : EnrichState :=
  { tracks := [wX, wY], isInsightLoading := true, outstanding := ["x"],
    requestLog := ["x", "x"] }

def esDone : EnrichState :=
  { tracks := [wXdone, wY], isInsightLoading := false, outstanding := [], requestLog := ["x"] }

def esStartY : EnrichState :=
  { tracks := [wXdone, wY], isInsightLoading := true, outstanding := ["y"],
    requestLog := ["x", "y"] }

-- Helper lemmas on the transport operations, shared between claims.

lemma playTrack_oob {view : List Track} {index : Int} (s : PlayerState)
    (h : index < 0 ∨ index ≥ (view.length : Int)) : playTrack view index s = s := by
  simp only [playTrack, if_pos h]

lemma playTrack_inb {view : List Track} {index : Int} (s : PlayerState)
    (h0 : 0 ≤ index) (h1 : index < (view.length : Int)) :
    playTrack view index s = { s with currentTrackIndex := index, isPlaying := true } := by
  have h : ¬(index < 0 ∨ index ≥ (view.length : Int)) := by omega
  simp only [playTrack, if_neg h]

lemma playTrack_nil (index : Int) (s : PlayerState) : playTrack [] index s = s := by
  have h0 : ((([] : List Track).length : Nat) : Int) = 0 := rfl
  exact playTrack_oob s (by omega)

/-- Claim C4: selectTrack (playTrack) with an index outside the view bounds,
including -1, leaves PlayerState byte-for-byte unchanged. -/
theorem playTrack_out_of_range_noop (view : List Track) (index : Int) (s : PlayerState)
    (h : index < 0 ∨ index ≥ (view.length : Int)) : playTrack view index s = s :=
  playTrack_oob s h

/-- Claim C4 witness: selecting index -1 on the empty view from the initial
state changes nothing. -/
theorem playTrack_out_of_range_noop_witness :
    playTrack [] (-1) initPlayerState = initPlayerState :=
  playTrack_out_of_range_noop [] (-1) initPlayerState (Or.inl (by decide))

/-- Claim C10: selectTrack (playTrack) with an in-bounds index sets only
currentTrackIndex and isPlaying; volume, currentTime, repeatMode and isShuffle
are untouched. -/
theorem playTrack_in_range_frame (view : List Track) (index : Int) (s : PlayerState)
    (h0 : 0 ≤ index) (h1 : index < (view.length : Int)) :
    playTrack view index s = { s with currentTrackIndex := index, isPlaying := true } :=
  playTrack_inb s h0 h1

/-- Claim C10 witness: selecting index 0 in a one-track view from the initial
state sets index 0 and isPlaying while keeping the other fields. -/
theorem playTrack_in_range_frame_witness :
    playTrack [tA] 0 initPlayerState =
      { initPlayerState with currentTrackIndex := 0, isPlaying := true } :=
  playTrack_in_range_frame [tA] 0 initPlayerState (by decide) (by decide)

/-- Claim C5 counterexample: the volume handler stores 1.4 as 1.4 (not 1.0)
and -0.2 as -0.2 (not 0.0); no clamping happens in the code. -/
theorem handleVolumeChange_no_clamp_cex :
    (handleVolumeChange (14/10) initPlayerState).volume = 14/10 ∧
    (14/10 : Rat) ≠ 1 ∧
    (handleVolumeChange (-(2/10)) initPlayerState).volume = -(2/10) ∧
    (-(2/10) : Rat) ≠ 0 := by
  refine ⟨rfl, by norm_num, rfl, by norm_num⟩

/-- Claim C5 amended: handleVolumeChange stores the given value into
PlayerState.volume unchanged (no clamping), and changes no other field; the
[0,1] range is enforced only by the range input control in the UI. -/
theorem handleVolumeChange_stores (vol : Rat) (s : PlayerState) :
    handleVolumeChange vol s = { s with volume := vol } := rfl

/-- Claim C8 counterexample: with an empty view, togglePlay from the initial
state is not a no-op on PlayerState; it flips isPlaying to true. -/
theorem togglePlay_empty_not_noop :
    togglePlay [] initPlayerState ≠ initPlayerState ∧
    (togglePlay [] initPlayerState).isPlaying = true := by
  refine ⟨by decide, by decide⟩

/-- Claim C8 amended: on an empty view, selectTrack, advance and retreat are
no-ops on PlayerState and no operation throws, but togglePlay flips isPlaying
(and changes nothing else). -/
theorem empty_view_transport (s : PlayerState) (index : Int) :
    playTrack [] index s = s ∧
    nextTrack [] s = s ∧
    prevTrack [] s = s ∧
    togglePlay [] s = { s with isPlaying := !s.isPlaying } := by
  refine ⟨?_, ?_, ?_, ?_⟩
  · exact playTrack_nil index s
  · by_cases hone : s.repeatMode = RepeatMode.one
    · simp only [nextTrack, if_pos hone]
    · simp only [nextTrack, if_neg hone]
      exact playTrack_nil _ s
  · simp only [prevTrack]
    exact playTrack_nil _ s
  · have h : ¬(s.currentTrackIndex = -1 ∧ 0 < ([] : List Track).length) := by
      intro hc
      exact absurd hc.2 (by decide)
    simp only [togglePlay, if_neg h]

-- Unfolded forms of nextTrack and prevTrack used by the transport claims.

lemma nextTrack_def (view : List Track) (s : PlayerState) :
    nextTrack view s =
      if s.repeatMode = RepeatMode.one then s
      else playTrack view
        (if s.currentTrackIndex + 1 ≥ (view.length : Int) then
          if s.repeatMode = RepeatMode.all then 0 else s.currentTrackIndex
        else s.currentTrackIndex + 1) s := rfl

lemma prevTrack_def (view : List Track) (s : PlayerState) :
    prevTrack view s =
      playTrack view
        (if s.currentTrackIndex - 1 < 0 then
          if s.repeatMode = RepeatMode.all then (view.length : Int) - 1 else 0
        else s.currentTrackIndex - 1) s := rfl

lemma nextTrack_mid (view : List Track) (s : PlayerState)
    (hone : s.repeatMode ≠ RepeatMode.one)
    (h0 : 0 ≤ s.currentTrackIndex + 1)
    (h1 : s.currentTrackIndex + 1 < (view.length : Int)) :
    nextTrack view s = { s with currentTrackIndex := s.currentTrackIndex + 1, isPlaying := true } := by
  rw [nextTrack_def, if_neg hone,
    if_neg (by omega : ¬(s.currentTrackIndex + 1 ≥ (view.length : Int)))]
  exact playTrack_inb s h0 h1

lemma prevTrack_pos (view : List Track) (s : PlayerState)
    (h0 : 0 ≤ s.currentTrackIndex - 1)
    (h1 : s.currentTrackIndex - 1 < (view.length : Int)) :
    prevTrack view s = { s with currentTrackIndex := s.currentTrackIndex - 1, isPlaying := true } := by
  rw [prevTrack_def, if_neg (by omega : ¬(s.currentTrackIndex - 1 < 0))]
  exact playTrack_inb s h0 h1

/-- Claim C6: on a non-empty view under repeatMode all, advance from the last
valid index wraps currentTrackIndex to 0, and retreat from index 0 wraps to the
last valid index. -/
theorem repeatAll_wraps (view : List Track) (s : PlayerState)
    (hne : view ≠ []) (hall : s.repeatMode = RepeatMode.all) :
    (s.currentTrackIndex = (view.length : Int) - 1 →
      (nextTrack view s).currentTrackIndex = 0) ∧
    (s.currentTrackIndex = 0 →
      (prevTrack view s).currentTrackIndex = (view.length : Int) - 1) := by
  have hlen : 0 < view.length := List.length_pos.mpr hne
  have hlenI : (0 : Int) < (view.length : Int) := by exact_mod_cast hlen
  have hone : s.repeatMode ≠ RepeatMode.one := by rw [hall]; intro hc; cases hc
  constructor
  · intro hidx
    rw [nextTrack_def, if_neg hone,
      if_pos (by omega : s.currentTrackIndex + 1 ≥ (view.length : Int)),
      if_pos hall, playTrack_inb s (le_refl 0) hlenI]
  · intro hidx
    rw [prevTrack_def, if_pos (by omega : s.currentTrackIndex - 1 < 0),
      if_pos hall, playTrack_inb s (by omega) (by omega)]

/-- Claim C6 witness: with a 3-track view under repeatMode all, advance from
index 2 lands on 0 and retreat from index 0 lands on 2. -/
theorem repeatAll_wraps_witness :
    (nextTrack [tA, tB, tC] s3all).currentTrackIndex = 0 ∧
    (prevTrack [tA, tB, tC] s0all).currentTrackIndex = ([tA, tB, tC].length : Int) - 1 := by
  constructor
  · exact (repeatAll_wraps [tA, tB, tC] s3all (by decide) rfl).1 (by decide)
  · exact (repeatAll_wraps [tA, tB, tC] s0all (by decide) rfl).2 (by decide)

/-- Claim C7: under repeatMode none, from a currentTrackIndex strictly inside
the view (not at either boundary), advance followed by retreat restores the
original currentTrackIndex. -/
theorem advance_retreat_roundtrip (view : List Track) (s : PlayerState)
    (hnone : s.repeatMode = RepeatMode.none)
    (hlo : 0 < s.currentTrackIndex)
    (hhi : s.currentTrackIndex < (view.length : Int) - 1) :
    (prevTrack view (nextTrack view s)).currentTrackIndex = s.currentTrackIndex := by
  have hone : s.repeatMode ≠ RepeatMode.one := by rw [hnone]; intro hc; cases hc
  rw [nextTrack_mid view s hone (by omega) (by omega)]
  have hs1 : ({ s with currentTrackIndex := s.currentTrackIndex + 1, isPlaying := true } : PlayerState).currentTrackIndex = s.currentTrackIndex + 1 := rfl
  rw [prevTrack_pos view _ (by rw [hs1]; omega) (by rw [hs1]; omega)]
  show s.currentTrackIndex + 1 - 1 = s.currentTrackIndex
  omega

/-- Claim C7 witness: in a 3-track view with repeatMode none, advance then
retreat from index 1 returns to index 1. -/
theorem advance_retreat_roundtrip_witness :
    (prevTrack [tA, tB, tC]
      (nextTrack [tA, tB, tC] { initPlayerState with currentTrackIndex := 1 })).currentTrackIndex = 1 :=
  advance_retreat_roundtrip [tA, tB, tC]
    { initPlayerState with currentTrackIndex := 1 } rfl (by decide) (by decide)

lemma displayedTracks_unset (tracks : List Track) (pls : List SmartPlaylist) :
    displayedTracks tracks pls none = tracks := rfl

lemma displayedTracks_active (tracks : List Track) (pls : List SmartPlaylist) (a : String) :
    displayedTracks tracks pls (some a) =
      match pls.find? (fun p => p.id == a) with
      | none => tracks
      | some playlist =>
        tracks.filter (fun t =>
          (t.insight.map (fun i => toLowerCase i.mood)) == (playlist.criteriaMood.map toLowerCase)) := rfl

/-- Claim C3: the derived view is the full catalog when the active id is unset
or unresolved; when it resolves to a playlist with criterion mood m it is the
order-preserving filter of the catalog by case-insensitive mood match, in which
tracks without insight never appear; and the view is always a subsequence of
the catalog. -/
theorem displayedTracks_correct (tracks : List Track) (pls : List SmartPlaylist)
    (aid : Option String) :
    (displayedTracks tracks pls aid).Sublist tracks ∧
    (aid = none → displayedTracks tracks pls aid = tracks) ∧
    (∀ a, aid = some a → pls.find? (fun p => p.id == a) = none →
      displayedTracks tracks pls aid = tracks) ∧
    (∀ a pl m, aid = some a → pls.find? (fun p => p.id == a) = some pl →
      pl.criteriaMood = some m →
      displayedTracks tracks pls aid = tracks.filter (specMoodMatch m)) := by
  cases aid with
  | none =>
    exact ⟨List.Sublist.refl tracks, fun _ => rfl,
      fun a ha _ => Option.noConfusion ha,
      fun a pl m ha _ _ => Option.noConfusion ha⟩
  | some a =>
    cases hfind : pls.find? (fun p => p.id == a) with
    | none =>
      have hd : displayedTracks tracks pls (some a) = tracks := by
        rw [displayedTracks_active, hfind]
      refine ⟨?_, ?_, ?_, ?_⟩
      · rw [hd]
      · intro h
        exact Option.noConfusion h
      · intro a' ha' hfind'
        have haa : a = a' := Option.some.inj ha'
        subst haa
        exact hd
      · intro a' pl' m ha' hfind' hm
        have haa : a = a' := Option.some.inj ha'
        subst haa
        rw [hfind] at hfind'
        exact Option.noConfusion hfind'
    | some pl =>
      have hd : displayedTracks tracks pls (some a) =
          tracks.filter (fun t =>
            (t.insight.map (fun i => toLowerCase i.mood)) == (pl.criteriaMood.map toLowerCase)) := by
        rw [displayedTracks_active, hfind]
      refine ⟨?_, ?_, ?_, ?_⟩
      · rw [hd]
        exact List.filter_sublist tracks
      · intro h
        exact Option.noConfusion h
      · intro a' ha' hfind'
        have haa : a = a' := Option.some.inj ha'
        subst haa
        rw [hfind] at hfind'
        exact Option.noConfusion hfind'
      · intro a' pl' m ha' hfind' hm
        have haa : a = a' := Option.some.inj ha'
        subst haa
        rw [hfind] at hfind'
        have hpl : pl = pl' := Option.some.inj hfind'
        subst hpl
        rw [hd, hm]
        apply List.filter_congr
        intro t _
        unfold specMoodMatch
        cases ht : t.insight with
        | none => rfl
        | some i => rfl

/-- Claim C3 witness: with catalog [A(mood Chill), B(no insight), C(mood
chill)] and the playlist created for mood Chill active, the view is the
spec-side filter, which evaluates to [A, C] in catalog order. -/
theorem displayedTracks_correct_witness :
    displayedTracks [tA, tB, tC] [plChill] (some "p1") =
      List.filter (specMoodMatch "Chill") [tA, tB, tC] ∧
    List.filter (specMoodMatch "Chill") [tA, tB, tC] = [tA, tC] := by
  constructor
  · exact (displayedTracks_correct [tA, tB, tC] [plChill] (some "p1")).2.2.2
      "p1" plChill "Chill" rfl rfl rfl
  · decide

/-- Every playlist the app creates carries a concrete criterion mood, so the
mood-some hypothesis of the C3 theorem covers all app-created playlists. -/
lemma createSmartPlaylist_mood_some (id mood : String) :
    (createSmartPlaylist id mood).criteriaMood = some mood := rfl

lemma singleton_of_length_le_one_mem {α : Type} {l : List α} {x : α}
    (h1 : l.length ≤ 1) (hx : x ∈ l) : l = [x] := by
  cases l with
  | nil => exact absurd hx (List.not_mem_nil x)
  | cons a l' =>
    cases l' with
    | nil =>
      have hxa : x = a := List.mem_singleton.mp hx
      rw [hxa]
    | cons b l'' =>
      exfalso
      simp only [List.length_cons] at h1
      omega

lemma map_preserves_ids (g : Track → Track) (hg : ∀ t, (g t).id = t.id)
    (l : List Track) : (l.map g).map Track.id = l.map Track.id := by
  rw [List.map_map]
  have h : (Track.id ∘ g) = Track.id := funext hg
  rw [h]

lemma applyResult_map_id (tracks : List Track) (tid : String) (res : Option AIInsight) :
    (applyResult tracks tid res).map Track.id = tracks.map Track.id := by
  cases res with
  | none => rfl
  | some i =>
    show ((tracks.map fun t => if t.id == tid then { t with insight := some i } else t).map
      Track.id) = tracks.map Track.id
    apply map_preserves_ids
    intro t
    split <;> rfl

lemma lookupTrack_map (l : List Track) (tid : String) (g : Track → Track)
    (hg : ∀ t, (g t).id = t.id) :
    lookupTrack (l.map g) tid = (lookupTrack l tid).map g := by
  have hp : ((fun t : Track => t.id == tid) ∘ g) = (fun t : Track => t.id == tid) := by
    funext t
    show ((g t).id == tid) = (t.id == tid)
    rw [hg t]
  show (l.map g).find? (fun t => t.id == tid) = (l.find? (fun t => t.id == tid)).map g
  rw [List.find?_map, hp]

lemma enrichInv_init : EnrichInv initEnrichState := by
  refine ⟨List.nodup_nil, by decide, by simp [initEnrichState], ?_⟩
  intro tid htid
  exact absurd htid (List.not_mem_nil tid)

lemma enrichInv_step {s s' : EnrichState} (hinv : EnrichInv s) (hstep : EnrichStep s s') :
    EnrichInv s' := by
  obtain ⟨hnd, hlen, hiff, hout⟩ := hinv
  cases hstep with
  | upload newTracks hids hnew =>
    refine ⟨hids, hlen, hiff, ?_⟩
    intro tid htid t ht hid
    rw [List.mem_append] at ht
    cases ht with
    | inl h => exact hout tid htid t h hid
    | inr h => exact hnew t h
  | start u hload hfind =>
    have hempty : s.outstanding = [] := by
      by_contra hne
      have hcon := hiff.mpr hne
      rw [hload] at hcon
      exact Bool.noConfusion hcon
    refine ⟨hnd, ?_, ?_, ?_⟩
    · show (s.outstanding ++ [u.id]).length ≤ 1
      rw [hempty]
      simp
    · show (true = true ↔ s.outstanding ++ [u.id] ≠ [])
      rw [hempty]
      simp
    · intro tid htid t ht hid
      have htid' : tid = u.id := by
        rw [hempty] at htid
        simpa using htid
      have hu : u ∈ s.tracks := List.mem_of_find?_eq_some hfind
      have hpu := List.find?_some hfind
      have huins : u.insight = none := Option.isNone_iff_eq_none.mp hpu
      have htu : t = u :=
        List.inj_on_of_nodup_map hnd ht hu (by rw [hid, htid'])
      rw [htu]
      exact huins
  | complete tid res hmem =>
    have hsing : s.outstanding = [tid] := singleton_of_length_le_one_mem hlen hmem
    refine ⟨?_, ?_, ?_, ?_⟩
    · show ((applyResult s.tracks tid res).map Track.id).Nodup
      rw [applyResult_map_id]
      exact hnd
    · show (s.outstanding.erase tid).length ≤ 1
      rw [hsing, List.erase_cons_head]
      decide
    · show (false = true ↔ s.outstanding.erase tid ≠ [])
      rw [hsing, List.erase_cons_head]
      simp
    · intro tid' htid'
      rw [hsing, List.erase_cons_head] at htid'
      exact absurd htid' (List.not_mem_nil tid')
  | setDuration tid d =>
    refine ⟨?_, hlen, hiff, ?_⟩
    · show ((s.tracks.map fun t => if t.id == tid then { t with duration := d } else t).map
        Track.id).Nodup
      rw [map_preserves_ids]
      · exact hnd
      · intro t
        split <;> rfl
    · intro tid' htid' t ht hid
      obtain ⟨t0, ht0, heq⟩ := List.mem_map.mp ht
      have hins : t.insight = t0.insight := by
        rw [← heq]
        split <;> rfl
      have hid0 : t0.id = tid' := by
        have hgid : t.id = t0.id := by
          rw [← heq]
          split <;> rfl
        rw [← hgid]
        exact hid
      rw [hins]
      exact hout tid' htid' t0 ht0 hid0

lemma enrichInv_reachable {s : EnrichState} (h : EnrichReachable s) : EnrichInv s := by
  induction h with
  | init => exact enrichInv_init
  | step hr hstep ih => exact enrichInv_step ih hstep

lemma step_upload : EnrichStep initEnrichState esUpload :=
  EnrichStep.upload [wX, wY] (by decide) (by decide)

lemma step_start1 : EnrichStep esUpload esStart1 :=
  EnrichStep.start wX rfl rfl

lemma step_fail1 : EnrichStep esStart1 esFail1 :=
  EnrichStep.complete "x" none (by decide)

lemma step_start2 : EnrichStep esFail1 esStart2 :=
  EnrichStep.start wX rfl rfl

lemma step_done : EnrichStep esStart1 esDone :=
  EnrichStep.complete "x" (some wI) (by decide)

lemma step_startY : EnrichStep esDone esStartY :=
  EnrichStep.start wY rfl rfl

lemma reach_esUpload : EnrichReachable esUpload :=
  EnrichReachable.step EnrichReachable.init step_upload

lemma reach_esStart1 : EnrichReachable esStart1 :=
  EnrichReachable.step reach_esUpload step_start1

lemma reach_esFail1 : EnrichReachable esFail1 :=
  EnrichReachable.step reach_esStart1 step_fail1

lemma reach_esStart2 : EnrichReachable esStart2 :=
  EnrichReachable.step reach_esFail1 step_start2

lemma reach_esDone : EnrichReachable esDone :=
  EnrichReachable.step reach_esStart1 step_done

/-- Claim C1: in every reachable pipeline state at most one enrichment request
is outstanding, and the isInsightLoading flag is set exactly while a request
is outstanding (set at issue time by the guarded start transition, cleared
only by the complete transition that applies the response). -/
theorem singleFlight_invariant (s : EnrichState) (h : EnrichReachable s) :
    s.outstanding.length ≤ 1 ∧ (s.isInsightLoading = true ↔ s.outstanding ≠ []) :=
  ⟨(enrichInv_reachable h).2.1, (enrichInv_reachable h).2.2.1⟩

/-- Claim C1 witness: the reachable state with a request for x in flight has
at most one outstanding request and its loading flag set. -/
theorem singleFlight_invariant_witness :
    esStart1.outstanding.length ≤ 1 ∧
    (esStart1.isInsightLoading = true ↔ esStart1.outstanding ≠ []) :=
  singleFlight_invariant esStart1 reach_esStart1

/-- Claim C2 counterexample: after the insight service answers null for track
x, the pipeline reaches a state whose request log records two requests for x
while x still has no insight: the effect re-runs when isInsightLoading flips
back to false (it is in the effect's dependency list) and finds the same
track again, so a failed track IS automatically re-requested. -/
theorem enrich_retry_counterexample :
    EnrichReachable esStart2 ∧ esStart2.requestLog = ["x", "x"] ∧
    esStart2.tracks = [wX, wY] ∧ wX.insight = none :=
  ⟨reach_esStart2, rfl, rfl, rfl⟩

/-- Claim C2 amended: a null (failure) response leaves every track's insight
unchanged, and in a catalog [X, Y] with X unprocessed every request the
pipeline issues targets X — so Y is requested only after a request for X
resolves successfully; but a failed X is re-requested (automatic retry)
rather than skipped forever. -/
theorem enrich_failure_keeps_none_and_order :
    (∀ (tracks : List Track) (tid : String), applyResult tracks tid none = tracks) ∧
    (∀ (s s' : EnrichState) (X Y : Track) (r : String),
      s.tracks = [X, Y] → X.insight = none → EnrichStep s s' →
      s'.requestLog = s.requestLog ++ [r] → r = X.id) := by
  constructor
  · intro tracks tid
    rfl
  · intro s s' X Y r htr hX hstep hlog
    cases hstep with
    | upload newTracks hids hnew =>
      exfalso
      have hl := congrArg List.length hlog
      rw [List.length_append] at hl
      simp only [List.length_cons, List.length_nil] at hl
      omega
    | start u hload hfind =>
      have hlog' : s.requestLog ++ [u.id] = s.requestLog ++ [r] := hlog
      have h2 : ([u.id] : List String) = [r] := List.append_cancel_left hlog'
      have hur : u.id = r := (List.cons.inj h2).1
      have hfx : (fun t : Track => t.insight.isNone) X = true := by
        show X.insight.isNone = true
        rw [hX]
        rfl
      have hfind2 : s.tracks.find? (fun t => t.insight.isNone) = some X := by
        rw [htr]
        exact List.find?_cons_of_pos [Y] hfx
      have hxu : X = u := Option.some.inj (hfind2.symm.trans hfind)
      rw [← hur, ← hxu]
    | complete tid res hmem =>
      exfalso
      have hl := congrArg List.length hlog
      rw [List.length_append] at hl
      simp only [List.length_cons, List.length_nil] at hl
      omega
    | setDuration tid d =>
      exfalso
      have hl := congrArg List.length hlog
      rw [List.length_append] at hl
      simp only [List.length_cons, List.length_nil] at hl
      omega

/-- Claim C2 amended witness: a null response applied to the concrete catalog
[X, Y] leaves it unchanged, and the retry request issued from the failed
state targets X. -/
theorem enrich_failure_keeps_none_and_order_witness :
    applyResult [wX, wY] "x" none = [wX, wY] ∧ ("x" : String) = wX.id := by
  constructor
  · exact enrich_failure_keeps_none_and_order.1 [wX, wY] "x"
  · exact enrich_failure_keeps_none_and_order.2 esFail1 esStart2 wX wY "x"
      rfl rfl step_start2 rfl

/-- Claim C9: along every reachable step of the pipeline, a track whose
insight is already set keeps exactly that insight (never overwritten), and
every in-flight request targets a track whose insight is still unset — so each
track's insight is written at most once. -/
theorem insight_write_once {s s' : EnrichState} (hreach : EnrichReachable s)
    (hstep : EnrichStep s s') :
    (∀ tid t i, lookupTrack s.tracks tid = some t → t.insight = some i →
      (lookupTrack s'.tracks tid).map Track.insight = some (some i)) ∧
    (∀ tid ∈ s.outstanding, ∀ t, lookupTrack s.tracks tid = some t →
      t.insight = none) := by
  obtain ⟨hnd, hlen, hiff, hout⟩ := enrichInv_reachable hreach
  have hsecond : ∀ tid ∈ s.outstanding, ∀ t, lookupTrack s.tracks tid = some t →
      t.insight = none := by
    intro tid htid t hlook
    have ht : t ∈ s.tracks := List.mem_of_find?_eq_some hlook
    have hid := List.find?_some hlook
    exact hout tid htid t ht (eq_of_beq hid)
  refine ⟨?_, hsecond⟩
  intro tid t i hlook hins
  cases hstep with
  | upload newTracks hids hnew =>
    show (lookupTrack (s.tracks ++ newTracks) tid).map Track.insight = some (some i)
    have happ : lookupTrack (s.tracks ++ newTracks) tid = some t := by
      show (s.tracks ++ newTracks).find? (fun t1 => t1.id == tid) = some t
      rw [List.find?_append]
      have hl : s.tracks.find? (fun t1 => t1.id == tid) = some t := hlook
      rw [hl]
      rfl
    rw [happ]
    exact congrArg some hins
  | start u hload hfind =>
    show (lookupTrack s.tracks tid).map Track.insight = some (some i)
    rw [hlook]
    exact congrArg some hins
  | complete tid' res hmem =>
    cases res with
    | none =>
      show (lookupTrack s.tracks tid).map Track.insight = some (some i)
      rw [hlook]
      exact congrArg some hins
    | some j =>
      show (lookupTrack
        (s.tracks.map fun t1 => if t1.id == tid' then { t1 with insight := some j } else t1)
        tid).map Track.insight = some (some i)
      rw [lookupTrack_map s.tracks tid
        (fun t1 => if t1.id == tid' then { t1 with insight := some j } else t1)
        (by
          intro t1
          show ((if t1.id == tid' then { t1 with insight := some j } else t1) : Track).id = t1.id
          split <;> rfl), hlook]
      by_cases hcase : (t.id == tid') = true
      · exfalso
        have hb := List.find?_some hlook
        have htidt : t.id = tid := eq_of_beq hb
        have htidp : t.id = tid' := eq_of_beq hcase
        have hteq : tid = tid' := htidt.symm.trans htidp
        have hn : t.insight = none := hsecond tid' hmem t (by rw [← hteq]; exact hlook)
        rw [hn] at hins
        exact Option.noConfusion hins
      · show some ((if t.id == tid' then { t with insight := some j } else t) : Track).insight =
          some (some i)
        rw [if_neg hcase]
        exact congrArg some hins
  | setDuration tid' d =>
    show (lookupTrack
      (s.tracks.map fun t1 => if t1.id == tid' then { t1 with duration := d } else t1)
      tid).map Track.insight = some (some i)
    rw [lookupTrack_map s.tracks tid
      (fun t1 => if t1.id == tid' then { t1 with duration := d } else t1)
      (by
        intro t1
        show ((if t1.id == tid' then { t1 with duration := d } else t1) : Track).id = t1.id
        split <;> rfl), hlook]
    show some ((if t.id == tid' then { t with duration := d } else t) : Track).insight =
      some (some i)
    by_cases hcase : (t.id == tid') = true
    · rw [if_pos hcase]
      exact congrArg some hins
    · rw [if_neg hcase]
      exact congrArg some hins

/-- Claim C9 witness: after x received its insight, the next step (starting a
request for y) preserves x's stored insight exactly. -/
theorem insight_write_once_witness :
    (lookupTrack esStartY.tracks "x").map Track.insight = some (some wI) :=
  (insight_write_once reach_esDone step_startY).1 "x" wXdone wI rfl rfl
